import Mathlib

/-!
Verification of the layered configuration resolver implemented in
`src/utils/config_manager.py` (class `ConfigManager`).

The Python data model is embedded shallowly:

* a YAML/JSON-like configuration value is a `Value` (scalar or nested dict);
  Python dicts are insertion-ordered association lists with unique keys;
* mutation of nested dicts becomes functional update (`setD`);
* Python exceptions (`KeyError`, `TypeError` raised by `value[k]` and
  `value[k] = x`) become `Except PyErr`;
* the process environment is a function `String → Option String`;
* the optional environment override file is a `FileState` carrying the
  parse outcome of `yaml.safe_load` (already defaulted to `{}` via `or {}`).
-/

/-- A configuration value: Python scalars (`bool`, `int`, `str`, `None`)
or a nested dict represented as an insertion-ordered association list. -/
inductive Value where
  | vB : Bool → Value
  | vI : Int → Value
  | vS : String → Value
  | vNull : Value
  | vDict : List (String × Value) → Value

/-- Is this value a dict (a Python `dict`, i.e. `isinstance(v, dict)`)? -/
def Value.isDict : Value → Bool
  | Value.vDict _ => true
  | _ => false

/-- Is this value Python `None`? (`v is None`) -/
def Value.isNull : Value → Bool
  | Value.vNull => true
  | _ => false

/-- The two Python exceptions the resolver's subscript operations can raise:
`KeyError` (missing dict key) and `TypeError` (subscripting a non-dict). -/
inductive PyErr where
  | keyError : PyErr
  | typeError : PyErr
deriving DecidableEq

/-- Dict lookup, `d[k]` read side: first entry with the given key. -/
def lookupD : List (String × Value) → String → Option Value
  | [], _ => none
  | (k', v') :: rest, k => if k' = k then some v' else lookupD rest k

/-- Dict assignment `d[k] = v`: overwrite in place if the key is present
(keeping its position), otherwise append at the end, as Python dicts do. -/
def setD : List (String × Value) → String → Value → List (String × Value)
  | [], k, v => [(k, v)]
  | (k', v') :: rest, k, v =>
    if k' = k then (k, v) :: rest else (k', v') :: setD rest k v

/-- Chained subscripting `value[k1][k2]...`, as performed by
`ConfigManager.get`: a missing key raises `KeyError`, subscripting a
non-dict raises `TypeError`. -/
def walkExc : Value → List String → Except PyErr Value
  | v, [] => Except.ok v
  | Value.vDict d, k :: ks =>
    match lookupD d k with
    | some v => walkExc v ks
    | none => Except.error PyErr.keyError
  | _, _ :: _ => Except.error PyErr.typeError

/-- The value reached by a path, when chained subscripting succeeds. -/
def walkV (v : Value) (ks : List String) : Option Value :=
  (walkExc v ks).toOption

/-- Python `str.lower()` (ASCII case folding, as used on env-var values). -/
def strLower (s : String) : String := ⟨s.data.map Char.toLower⟩

/-- Helper for `splitDots`: accumulates the current segment (reversed). -/
def splitDotsAux : List Char → List Char → List String
  | [], acc => [⟨acc.reverse⟩]
  | c :: rest, acc =>
    if c = '.' then (⟨acc.reverse⟩ : String) :: splitDotsAux rest []
    else splitDotsAux rest (c :: acc)

/-- Python `key.split('.')`: dotted-path splitting; never returns an empty list. -/
def splitDots (s : String) : List String := splitDotsAux s.data []

/-- Python `str.isdigit()` restricted to ASCII: non-empty and all decimal digits. -/
def isDigitStr (s : String) : Bool := !s.data.isEmpty && s.data.all Char.isDigit

/-- Python `int(s)` for a decimal-digit string. -/
def digitsToNat (s : String) : Nat := s.data.foldl (fun n c => n * 10 + (c.toNat - 48)) 0

namespace ConfigManager

/-- The hard-coded `default_config` literal built at the start of
`ConfigManager._load_config`. -/
def defaultConfig : List (String × Value) := [
  ("web", Value.vDict [
    ("base_url", Value.vS "http://localhost:3000"),
    ("implicit_wait", Value.vI 10),
    ("explicit_wait", Value.vI 20),
    ("page_load_timeout", Value.vI 30),
    ("window_size", Value.vDict [("width", Value.vI 1920), ("height", Value.vI 1080)])]),
  ("api", Value.vDict [
    ("base_url", Value.vS "http://localhost:8000"),
    ("timeout", Value.vI 30),
    ("headers", Value.vDict [
      ("Content-Type", Value.vS "application/json"),
      ("Accept", Value.vS "application/json")])]),
  ("database", Value.vDict [
    ("url", Value.vS "sqlite:///test.db"),
    ("pool_size", Value.vI 10),
    ("max_overflow", Value.vI 20)]),
  ("browser", Value.vDict [
    ("name", Value.vS "chrome"),
    ("headless", Value.vB true),
    ("download_path", Value.vS "./downloads"),
    ("user_agent", Value.vNull)]),
  ("mobile", Value.vDict [
    ("platform", Value.vS "Android"),
    ("device_name", Value.vS "Pixel_4_API_30"),
    ("app_path", Value.vNull)]),
  ("reporting", Value.vDict [
    ("html_report", Value.vB true),
    ("json_report", Value.vB true),
    ("xml_report", Value.vB true),
    ("screenshot_on_failure", Value.vB true),
    ("video_recording", Value.vB false)]),
  ("parallel", Value.vDict [
    ("enabled", Value.vB true),
    ("workers", Value.vS "auto"),
    ("max_workers", Value.vI 4)]),
  ("retry", Value.vDict [
    ("enabled", Value.vB true),
    ("max_retries", Value.vI 2),
    ("retry_delay", Value.vI 1)]),
  ("logging", Value.vDict [
    ("level", Value.vS "INFO"),
    ("format", Value.vS "%(asctime)s - %(name)s - %(levelname)s - %(message)s"),
    ("file", Value.vS "logs/test.log")])]

mutual
/-- The method `ConfigManager._merge_config(base_config, override_config)`: iterate the
override entries in order, mutating the base. -/
def mergeConfig : List (String × Value) → List (String × Value) → List (String × Value)
  | base, [] => base
  | base, (k, v) :: rest => mergeConfig (mergeOne base k v) rest

/-- One iteration of the `_merge_config` loop: if the key is present in the
base and both values are dicts, recurse; otherwise `base_config[key] = value`. -/
def mergeOne (base : List (String × Value)) (k : String) (v : Value) : List (String × Value) :=
  match lookupD base k, v with
  | some (Value.vDict bd), Value.vDict od => setD base k (Value.vDict (mergeConfig bd od))
  | _, _ => setD base k v
end

/-- The `env_mappings` table of `_override_with_env_vars`:
environment variable name, section key, setting key. -/
def envMappings : List (String × String × String) := [
  ("WEB_BASE_URL", "web", "base_url"),
  ("API_BASE_URL", "api", "base_url"),
  ("DATABASE_URL", "database", "url"),
  ("BROWSER_NAME", "browser", "name"),
  ("BROWSER_HEADLESS", "browser", "headless"),
  ("IMPLICIT_WAIT", "web", "implicit_wait"),
  ("EXPLICIT_WAIT", "web", "explicit_wait"),
  ("PAGE_LOAD_TIMEOUT", "web", "page_load_timeout"),
  ("API_TIMEOUT", "api", "timeout"),
  ("LOG_LEVEL", "logging", "level"),
  ("PARALLEL_WORKERS", "parallel", "workers"),
  ("RETRY_COUNT", "retry", "max_retries"),
  ("SCREENSHOT_ON_FAILURE", "reporting", "screenshot_on_failure"),
  ("VIDEO_RECORDING", "reporting", "video_recording")]

/-- Type conversion applied to a set env-var value in
`_override_with_env_vars`: `"true"`/`"false"` case-insensitively become a
boolean, an all-decimal-digit string becomes an integer, anything else
stays a string. -/
def convertEnv (s : String) : Value :=
  if strLower s = "true" ∨ strLower s = "false" then Value.vB (decide (strLower s = "true"))
  else if isDigitStr s then Value.vI (Int.ofNat (digitsToNat s))
  else Value.vS s

/-- One env-var write: `current = config[sect]` then `current[key] = v`.
A missing section raises `KeyError`; a non-dict section makes the final
assignment raise `TypeError`. -/
def applyEnvOne (cfg : List (String × Value)) (sect key : String) (v : Value) :
    Except PyErr (List (String × Value)) :=
  match lookupD cfg sect with
  | none => Except.error PyErr.keyError
  | some (Value.vDict d) => Except.ok (setD cfg sect (Value.vDict (setD d key v)))
  | some _ => Except.error PyErr.typeError

/-- The `_override_with_env_vars` loop over an explicit mapping list. -/
def overrideEnvList (envf : String → Option String) :
    List (String × String × String) → List (String × Value) →
    Except PyErr (List (String × Value))
  | [], cfg => Except.ok cfg
  | (name, sect, key) :: rest, cfg =>
    match envf name with
    | none => overrideEnvList envf rest cfg
    | some s =>
      match applyEnvOne cfg sect key (convertEnv s) with
      | Except.ok cfg2 => overrideEnvList envf rest cfg2
      | Except.error e => Except.error e

/-- The method `ConfigManager._override_with_env_vars(config)` with the process
environment `envf`. -/
def overrideWithEnvVars (envf : String → Option String) (cfg : List (String × Value)) :
    Except PyErr (List (String × Value)) :=
  overrideEnvList envf envMappings cfg

/-- The parse outcome of the environment override file at `Load` time:
absent, or present with the result of `yaml.safe_load(f) or {}`
(a parse error carries the YAML error message). -/
inductive FileState where
  | absent : FileState
  | present : Except String (List (String × Value)) → FileState

/-- Errors `_load_config` can propagate: a YAML parse error from the
override file, or a Python lookup error from the env-var pass. -/
inductive LoadErr where
  | parseError : String → LoadErr
  | envError : PyErr → LoadErr

/-- The merge-then-override core of `_load_config`, after the override
file (if any) has been parsed into `fileCfg`. -/
def loadData (fileCfg : Option (List (String × Value))) (envf : String → Option String) :
    Except PyErr (List (String × Value)) :=
  match fileCfg with
  | none => overrideWithEnvVars envf defaultConfig
  | some f => overrideWithEnvVars envf (mergeConfig defaultConfig f)

/-- The method `ConfigManager._load_config` (also re-run by `reload_config`):
defaults, then file merge when the file is present and parses, then
env-var overrides; a parse error propagates. -/
def loadConfig : FileState → (String → Option String) → Except LoadErr (List (String × Value))
  | FileState.absent, envf =>
    match loadData none envf with
    | Except.ok cfg => Except.ok cfg
    | Except.error e => Except.error (LoadErr.envError e)
  | FileState.present (Except.error e), _ => Except.error (LoadErr.parseError e)
  | FileState.present (Except.ok f), envf =>
    match loadData (some f) envf with
    | Except.ok cfg => Except.ok cfg
    | Except.error e => Except.error (LoadErr.envError e)

/-- The method `ConfigManager.get(key, default)` with the two-arm `except (KeyError,
TypeError)` handler made explicit. -/
def getExc (cfg : List (String × Value)) (key : String) (dflt : Value) : Except PyErr Value :=
  match walkExc (Value.vDict cfg) (splitDots key) with
  | Except.ok v => Except.ok v
  | Except.error PyErr.keyError => Except.ok dflt
  | Except.error PyErr.typeError => Except.ok dflt

/-- The method `ConfigManager.get(key, default)` as the value it returns. -/
def get (cfg : List (String × Value)) (key : String) (dflt : Value) : Value :=
  match walkExc (Value.vDict cfg) (splitDots key) with
  | Except.ok v => v
  | Except.error PyErr.keyError => dflt
  | Except.error PyErr.typeError => dflt

/-- The walk of `ConfigManager.set` over the already-split key list
(`keys[:-1]` creation walk, then `current[keys[-1]] = value`). Any
existing non-dict intermediate raises `TypeError` (`k not in current`
or the subscript/assignment on a non-dict). -/
def setWalk : List (String × Value) → List String → Value →
    Except PyErr (List (String × Value))
  | cur, [last], v => Except.ok (setD cur last v)
  | cur, k :: rest, v =>
    (match lookupD cur k with
     | some (Value.vDict d) =>
       match setWalk d rest v with
       | Except.ok d2 => Except.ok (setD cur k (Value.vDict d2))
       | Except.error e => Except.error e
     | some _ => Except.error PyErr.typeError
     | none =>
       match setWalk [] rest v with
       | Except.ok d2 => Except.ok (setD cur k (Value.vDict d2))
       | Except.error e => Except.error e)
  | cur, [], _ => Except.ok cur

/-- The method `ConfigManager.set(key, value)`. -/
def set (cfg : List (String × Value)) (key : String) (v : Value) :
    Except PyErr (List (String × Value)) :=
  setWalk cfg (splitDots key) v

/-- The `required_keys` list of `validate_config`. -/
def requiredKeys : List String := ["web.base_url", "api.base_url", "browser.name"]

/-- The `validate_config` loop: raise `ValueError` on the first required
key whose `get(key)` is `None`. -/
def validateKeys (cfg : List (String × Value)) : List String → Except String Bool
  | [] => Except.ok true
  | k :: rest =>
    if (get cfg k Value.vNull).isNull then
      Except.error ("Missing required configuration: " ++ k)
    else validateKeys cfg rest

/-- The method `ConfigManager.validate_config()`. -/
def validateConfig (cfg : List (String × Value)) : Except String Bool :=
  validateKeys cfg requiredKeys

end ConfigManager

mutual
/-- Well-formedness of a value as produced by Python: every dict at every
level has pairwise-distinct keys. -/
def wfValue : Value → Bool
  | Value.vDict d => wfEntries d
  | _ => true

/-- Well-formedness of a dict entry list: distinct keys, well-formed values. -/
def wfEntries : List (String × Value) → Bool
  | [] => true
  | (k, v) :: rest => rest.all (fun kv => kv.1 != k) && wfValue v && wfEntries rest
end

/-- All (section, key) target paths in an env-mapping table are distinct. -/
def pathsDistinct : List (String × String × String) → Bool
  | [] => true
  | (_, s, k) :: rest =>
    rest.all (fun e => !(e.2.1 == s && e.2.2 == k)) && pathsDistinct rest

/-- The converted value the env-var layer writes at target path
(`sect`, `key`), if any: the first table entry with that path whose
variable is set in the environment. -/
def envPathValue (envf : String → Option String) (sect key : String) :
    List (String × String × String) → Option Value
  | [] => none
  | (name, s, k) :: rest =>
    if s = sect ∧ k = key then
      match envf name with
      | some str => some (ConfigManager.convertEnv str)
      | none => envPathValue envf sect key rest
    else envPathValue envf sect key rest

/-- Does the creation walk of `ConfigManager.set` go through: every
intermediate segment that already exists must hold a dict. -/
def pathCreatable : List (String × Value) → List String → Bool
  | _, [] => true
  | _, [_] => true
  | cur, k :: rest =>
    match lookupD cur k with
    | some (Value.vDict d) => pathCreatable d rest
    | some _ => false
    | none => pathCreatable [] rest

/-! ### Association-list lemmas -/

theorem lookupD_setD_self (l : List (String × Value)) (k : String) (v : Value) :
    lookupD (setD l k v) k = some v := by
  induction l with
  | nil => simp [setD, lookupD]
  | cons hd tl ih =>
    obtain ⟨k', v'⟩ := hd
    by_cases h : k' = k
    · simp [setD, h, lookupD]
    · simp [setD, h, lookupD, ih]

theorem lookupD_setD_ne (l : List (String × Value)) (k k' : String) (v : Value)
    (h : k' ≠ k) : lookupD (setD l k v) k' = lookupD l k' := by
  induction l with
  | nil =>
    simp only [setD, lookupD]
    rw [if_neg (Ne.symm h)]
  | cons hd tl ih =>
    obtain ⟨k0, v0⟩ := hd
    by_cases h0 : k0 = k
    · subst h0
      simp only [setD, if_pos rfl, lookupD]
      rw [if_neg (Ne.symm h), if_neg (Ne.symm h)]
    · simp only [setD, if_neg h0, lookupD]
      by_cases h1 : k0 = k'
      · simp [if_pos h1]
      · simp [if_neg h1, ih]

theorem lookupD_eq_none_of_all_ne (l : List (String × Value)) (k : String)
    (h : l.all (fun kv => kv.1 != k) = true) : lookupD l k = none := by
  induction l with
  | nil => rfl
  | cons hd tl ih =>
    obtain ⟨k0, v0⟩ := hd
    simp only [List.all_cons, Bool.and_eq_true, bne_iff_ne, ne_eq] at h
    simp [lookupD, h.1, ih h.2]

/-! ### Merge lemmas -/

theorem lookupD_mergeOne_ne (b : List (String × Value)) (k0 k : String) (v : Value)
    (h : k ≠ k0) : lookupD (ConfigManager.mergeOne b k0 v) k = lookupD b k := by
  unfold ConfigManager.mergeOne
  split <;> exact lookupD_setD_ne _ _ _ _ h

theorem lookupD_mergeConfig_of_none (o : List (String × Value)) :
    ∀ (b : List (String × Value)) (k : String), lookupD o k = none →
      lookupD (ConfigManager.mergeConfig b o) k = lookupD b k := by
  induction o with
  | nil => intro b k _; rfl
  | cons hd tl ih =>
    intro b k h
    obtain ⟨k0, v0⟩ := hd
    have hne : k0 ≠ k := by
      intro hk; simp [lookupD, hk] at h
    have htl : lookupD tl k = none := by
      simpa [lookupD, hne] using h
    show lookupD (ConfigManager.mergeConfig (ConfigManager.mergeOne b k0 v0) tl) k = lookupD b k
    rw [ih _ _ htl, lookupD_mergeOne_ne _ _ _ _ (fun hh => hne hh.symm)]

/-- Keys with pairwise-distinct keys at the top level only. -/
def distinctKeys : List (String × Value) → Bool
  | [] => true
  | (k, _) :: rest => rest.all (fun kv => kv.1 != k) && distinctKeys rest

theorem lookupD_mergeOne_dd (b : List (String × Value)) (k : String)
    (bd od : List (String × Value)) (hb : lookupD b k = some (Value.vDict bd)) :
    lookupD (ConfigManager.mergeOne b k (Value.vDict od)) k =
      some (Value.vDict (ConfigManager.mergeConfig bd od)) := by
  unfold ConfigManager.mergeOne
  rw [hb]
  exact lookupD_setD_self _ _ _

theorem mergeOne_eq_setD (b : List (String × Value)) (k : String) (v : Value)
    (h : ∀ bd od, lookupD b k = some (Value.vDict bd) → v = Value.vDict od → False) :
    ConfigManager.mergeOne b k v = setD b k v := by
  unfold ConfigManager.mergeOne
  split
  · rename_i bd od heq
    exact (h bd od heq rfl).elim
  · rfl

/-- Behavior of `_merge_config` at a key held by the override and the base, both as
dicts: the merged dict appears, recursively merged. -/
theorem mergeConfig_lookup_both_dict (o : List (String × Value)) :
    ∀ (b : List (String × Value)) (k : String) (od bd : List (String × Value)),
      distinctKeys o = true → lookupD o k = some (Value.vDict od) →
      lookupD b k = some (Value.vDict bd) →
      lookupD (ConfigManager.mergeConfig b o) k =
        some (Value.vDict (ConfigManager.mergeConfig bd od)) := by
  induction o with
  | nil => intro b k od bd _ ho _; exact Option.noConfusion ho
  | cons hd tl ih =>
    intro b k od bd hdis ho hb
    obtain ⟨k0, v0⟩ := hd
    simp only [distinctKeys, Bool.and_eq_true] at hdis
    show lookupD (ConfigManager.mergeConfig (ConfigManager.mergeOne b k0 v0) tl) k = _
    by_cases hk : k = k0
    · subst hk
      have htl : lookupD tl k = none := lookupD_eq_none_of_all_ne _ _ hdis.1
      have hv0 : v0 = Value.vDict od := by
        have : some v0 = some (Value.vDict od) := by
          rw [← ho]; simp [lookupD]
        exact Option.some.inj this
      subst hv0
      rw [lookupD_mergeConfig_of_none _ _ _ htl]
      exact lookupD_mergeOne_dd _ _ _ _ hb
    · have hlk : lookupD tl k = some (Value.vDict od) := by
        rw [← ho]; simp only [lookupD]; rw [if_neg (fun hh => hk hh.symm)]
      have hb2 : lookupD (ConfigManager.mergeOne b k0 v0) k = some (Value.vDict bd) := by
        rw [lookupD_mergeOne_ne _ _ _ _ hk]; exact hb
      exact ih _ _ _ _ hdis.2 hlk hb2

/-- Behavior of `_merge_config` at a key held by the override where the two sides are
not both dicts: the override value replaces whatever the base held
(no type-compatibility check). -/
theorem mergeConfig_lookup_replace (o : List (String × Value)) :
    ∀ (b : List (String × Value)) (k : String) (ov : Value),
      distinctKeys o = true → lookupD o k = some ov →
      (∀ od bd, ov = Value.vDict od → lookupD b k = some (Value.vDict bd) → False) →
      lookupD (ConfigManager.mergeConfig b o) k = some ov := by
  induction o with
  | nil => intro b k ov _ ho _; exact Option.noConfusion ho
  | cons hd tl ih =>
    intro b k ov hdis ho hnot
    obtain ⟨k0, v0⟩ := hd
    simp only [distinctKeys, Bool.and_eq_true] at hdis
    show lookupD (ConfigManager.mergeConfig (ConfigManager.mergeOne b k0 v0) tl) k = _
    by_cases hk : k = k0
    · subst hk
      have htl : lookupD tl k = none := lookupD_eq_none_of_all_ne _ _ hdis.1
      have hv0 : v0 = ov := by
        have : some v0 = some ov := by rw [← ho]; simp [lookupD]
        exact Option.some.inj this
      subst hv0
      rw [lookupD_mergeConfig_of_none _ _ _ htl]
      rw [mergeOne_eq_setD _ _ _ (fun bd od hb hv => hnot od bd hv hb)]
      exact lookupD_setD_self _ _ _
    · have hlk : lookupD tl k = some ov := by
        rw [← ho]; simp only [lookupD]; rw [if_neg (fun hh => hk hh.symm)]
      have hnot2 : ∀ od bd, ov = Value.vDict od →
          lookupD (ConfigManager.mergeOne b k0 v0) k = some (Value.vDict bd) → False := by
        intro od bd hov hb2
        rw [lookupD_mergeOne_ne _ _ _ _ hk] at hb2
        exact hnot od bd hov hb2
      exact ih _ _ _ hdis.2 hlk hnot2

/-! ### Well-formedness lemmas -/

theorem wfValue_dict (d : List (String × Value)) :
    wfValue (Value.vDict d) = wfEntries d := by
  unfold wfValue; rfl

theorem wfEntries_distinctKeys (l : List (String × Value))
    (h : wfEntries l = true) : distinctKeys l = true := by
  induction l with
  | nil => rfl
  | cons hd tl ih =>
    obtain ⟨k, v⟩ := hd
    unfold wfEntries at h
    simp only [Bool.and_eq_true] at h
    unfold distinctKeys
    simp only [Bool.and_eq_true]
    exact ⟨h.1.1, ih h.2⟩

theorem wfEntries_lookup (l : List (String × Value)) (k : String) (u : Value)
    (hwf : wfEntries l = true) (hl : lookupD l k = some u) : wfValue u = true := by
  induction l with
  | nil => exact Option.noConfusion hl
  | cons hd tl ih =>
    obtain ⟨k0, v0⟩ := hd
    unfold wfEntries at hwf
    simp only [Bool.and_eq_true] at hwf
    by_cases hk : k0 = k
    · have : some v0 = some u := by rw [← hl]; simp [lookupD, hk]
      rw [← Option.some.inj this]
      exact hwf.1.2
    · have : lookupD tl k = some u := by
        rw [← hl]; simp only [lookupD]; rw [if_neg hk]
      exact ih hwf.2 this

/-! ### Walk lemmas -/

theorem walkExc_dict_cons (d : List (String × Value)) (k : String) (ks : List String) :
    walkExc (Value.vDict d) (k :: ks) =
      (match lookupD d k with
       | some v => walkExc v ks
       | none => Except.error PyErr.keyError) := rfl

theorem walkExc_nil (v : Value) : walkExc v [] = Except.ok v := by
  cases v <;> rfl

theorem walkExc_not_dict (v : Value) (h : v.isDict = false) (k : String) (ks : List String) :
    walkExc v (k :: ks) = Except.error PyErr.typeError := by
  cases v <;> first | rfl | (simp [Value.isDict] at h)

theorem lookupD_mergeOne_self_some (b : List (String × Value)) (k : String) (v : Value) :
    ∃ w, lookupD (ConfigManager.mergeOne b k v) k = some w := by
  unfold ConfigManager.mergeOne
  split
  · exact ⟨_, lookupD_setD_self _ _ _⟩
  · exact ⟨_, lookupD_setD_self _ _ _⟩

theorem mergeConfig_lookup_some (o : List (String × Value)) :
    ∀ (b : List (String × Value)) (k : String),
      ((∃ u, lookupD b k = some u) ∨ (∃ u, lookupD o k = some u)) →
      ∃ w, lookupD (ConfigManager.mergeConfig b o) k = some w := by
  induction o with
  | nil =>
    intro b k h
    rcases h with ⟨u, hu⟩ | ⟨u, hu⟩
    · exact ⟨u, hu⟩
    · exact Option.noConfusion hu
  | cons hd tl ih =>
    intro b k h
    obtain ⟨k0, v0⟩ := hd
    show ∃ w, lookupD (ConfigManager.mergeConfig (ConfigManager.mergeOne b k0 v0) tl) k = some w
    by_cases hk : k = k0
    · subst hk
      obtain ⟨w, hw⟩ := lookupD_mergeOne_self_some b k v0
      exact ih _ _ (Or.inl ⟨w, hw⟩)
    · apply ih
      rcases h with ⟨u, hu⟩ | ⟨u, hu⟩
      · exact Or.inl ⟨u, by rw [lookupD_mergeOne_ne _ _ _ _ hk]; exact hu⟩
      · refine Or.inr ⟨u, ?_⟩
        rw [← hu]
        simp only [lookupD]
        rw [if_neg (fun hh => hk hh.symm)]

/-- A non-dict value reachable in the override is reachable unchanged in
the merge result: the override wins at scalar-valued paths. -/
theorem walkExc_mergeConfig_override (ps : List String) :
    ∀ (o b : List (String × Value)) (v : Value),
      wfValue (Value.vDict o) = true →
      walkExc (Value.vDict o) ps = Except.ok v →
      v.isDict = false →
      walkExc (Value.vDict (ConfigManager.mergeConfig b o)) ps = Except.ok v := by
  induction ps with
  | nil =>
    intro o b v _ ho hv
    have : v = Value.vDict o :=
      (Except.ok.inj (show Except.ok (Value.vDict o) = Except.ok v from ho)).symm
    rw [this] at hv
    simp [Value.isDict] at hv
  | cons k rest ih =>
    intro o b v hwf ho hv
    have hdis : distinctKeys o = true :=
      wfEntries_distinctKeys o (by rw [← wfValue_dict]; exact hwf)
    cases hlo : lookupD o k with
    | none =>
      rw [walkExc_dict_cons, hlo] at ho
      exact Except.noConfusion ho
    | some ov =>
      have hrest : walkExc ov rest = Except.ok v := by
        rw [walkExc_dict_cons, hlo] at ho
        exact ho
      cases rest with
      | nil =>
        rw [walkExc_nil] at hrest
        have hov : ov = v := Except.ok.inj hrest
        subst hov
        have hm := mergeConfig_lookup_replace o b k ov hdis hlo
          (fun od bd hod _ => by rw [hod] at hv; simp [Value.isDict] at hv)
        rw [walkExc_dict_cons, hm]
        exact walkExc_nil ov
      | cons r rs =>
        obtain ⟨od, rfl⟩ : ∃ od, ov = Value.vDict od := by
          cases hc : ov <;> rw [hc] at hrest <;>
            first
              | exact ⟨_, rfl⟩
              | (rw [walkExc_not_dict _ (by simp [Value.isDict]) _ _] at hrest
                 exact Except.noConfusion hrest)
        have hwfod : wfValue (Value.vDict od) = true := by
          rw [wfValue_dict]
          have := wfEntries_lookup o k (Value.vDict od) (by rw [← wfValue_dict]; exact hwf) hlo
          rw [wfValue_dict] at this
          exact this
        cases hb : lookupD b k with
        | some bv =>
          cases bv with
          | vDict bd =>
            have hm := mergeConfig_lookup_both_dict o b k od bd hdis hlo hb
            rw [walkExc_dict_cons, hm]
            exact ih od bd v hwfod hrest hv
          | vB x =>
            have hm := mergeConfig_lookup_replace o b k _ hdis hlo
              (fun od2 bd h1 h2 => by rw [hb] at h2; exact Value.noConfusion (Option.some.inj h2))
            rw [walkExc_dict_cons, hm]
            exact hrest
          | vI x =>
            have hm := mergeConfig_lookup_replace o b k _ hdis hlo
              (fun od2 bd h1 h2 => by rw [hb] at h2; exact Value.noConfusion (Option.some.inj h2))
            rw [walkExc_dict_cons, hm]
            exact hrest
          | vS x =>
            have hm := mergeConfig_lookup_replace o b k _ hdis hlo
              (fun od2 bd h1 h2 => by rw [hb] at h2; exact Value.noConfusion (Option.some.inj h2))
            rw [walkExc_dict_cons, hm]
            exact hrest
          | vNull =>
            have hm := mergeConfig_lookup_replace o b k _ hdis hlo
              (fun od2 bd h1 h2 => by rw [hb] at h2; exact Value.noConfusion (Option.some.inj h2))
            rw [walkExc_dict_cons, hm]
            exact hrest
        | none =>
          have hm := mergeConfig_lookup_replace o b k _ hdis hlo
            (fun od2 bd h1 h2 => by rw [hb] at h2; exact Option.noConfusion h2)
          rw [walkExc_dict_cons, hm]
          exact hrest

/-- A path reachable in the base stays reachable in the merge result,
provided every value the override supplies at a proper prefix of the
path is itself a dict. -/
theorem walkExc_mergeConfig_superset (ps : List String) :
    ∀ (b o : List (String × Value)) (v : Value),
      wfValue (Value.vDict o) = true →
      walkExc (Value.vDict b) ps = Except.ok v →
      (∀ qs rs, qs ++ rs = ps → rs ≠ [] → ∀ u,
        walkExc (Value.vDict o) qs = Except.ok u → u.isDict = true) →
      ∃ w, walkExc (Value.vDict (ConfigManager.mergeConfig b o)) ps = Except.ok w := by
  induction ps with
  | nil => intro b o v _ _ _; exact ⟨_, rfl⟩
  | cons k rest ih =>
    intro b o v hwf hb hpre
    have hdis : distinctKeys o = true :=
      wfEntries_distinctKeys o (by rw [← wfValue_dict]; exact hwf)
    cases hlb : lookupD b k with
    | none =>
      rw [walkExc_dict_cons, hlb] at hb
      exact Except.noConfusion hb
    | some bv =>
      have hrest : walkExc bv rest = Except.ok v := by
        rw [walkExc_dict_cons, hlb] at hb
        exact hb
      cases hlo : lookupD o k with
      | none =>
        have hm := lookupD_mergeConfig_of_none o b k hlo
        refine ⟨v, ?_⟩
        rw [walkExc_dict_cons, hm, hlb]
        exact hrest
      | some ov =>
        cases rest with
        | nil =>
          obtain ⟨w, hw⟩ := mergeConfig_lookup_some o b k (Or.inr ⟨ov, hlo⟩)
          exact ⟨w, by rw [walkExc_dict_cons, hw]; exact walkExc_nil w⟩
        | cons r rs =>
          have hou : ov.isDict = true := by
            refine hpre [k] (r :: rs) rfl (by simp) ov ?_
            rw [walkExc_dict_cons, hlo]
            exact walkExc_nil ov
          obtain ⟨od, rfl⟩ : ∃ od, ov = Value.vDict od := by
            cases ov <;> simp [Value.isDict] at hou ⊢
          obtain ⟨bd, rfl⟩ : ∃ bd, bv = Value.vDict bd := by
            cases hc : bv <;> rw [hc] at hrest <;>
              first
                | exact ⟨_, rfl⟩
                | (rw [walkExc_not_dict _ (by simp [Value.isDict]) _ _] at hrest
                   exact Except.noConfusion hrest)
          have hwfod : wfValue (Value.vDict od) = true := by
            rw [wfValue_dict]
            have := wfEntries_lookup o k (Value.vDict od) (by rw [← wfValue_dict]; exact hwf) hlo
            rw [wfValue_dict] at this
            exact this
          have hpre2 : ∀ qs rs2, qs ++ rs2 = r :: rs → rs2 ≠ [] → ∀ u,
              walkExc (Value.vDict od) qs = Except.ok u → u.isDict = true := by
            intro qs rs2 hqs hrs u hu
            refine hpre (k :: qs) rs2 (by rw [List.cons_append, hqs]) hrs u ?_
            rw [walkExc_dict_cons, hlo]
            exact hu
          obtain ⟨w, hw⟩ := ih bd od v hwfod hrest hpre2
          have hm := mergeConfig_lookup_both_dict o b k od bd hdis hlo hlb
          refine ⟨w, ?_⟩
          rw [walkExc_dict_cons, hm]
          exact hw

/-! ### Environment-variable layer lemmas -/

theorem applyEnvOne_ok_dict (cfg cfg' : List (String × Value)) (sect key : String) (v : Value)
    (h : ConfigManager.applyEnvOne cfg sect key v = Except.ok cfg') :
    ∃ d, lookupD cfg sect = some (Value.vDict d) ∧
      cfg' = setD cfg sect (Value.vDict (setD d key v)) := by
  unfold ConfigManager.applyEnvOne at h
  cases hl : lookupD cfg sect with
  | none => rw [hl] at h; exact Except.noConfusion h
  | some u =>
    cases u with
    | vDict d =>
      rw [hl] at h
      exact ⟨d, rfl, (Except.ok.inj h).symm⟩
    | vB x => rw [hl] at h; exact Except.noConfusion h
    | vI x => rw [hl] at h; exact Except.noConfusion h
    | vS x => rw [hl] at h; exact Except.noConfusion h
    | vNull => rw [hl] at h; exact Except.noConfusion h

theorem applyEnvOne_walk2_other (cfg cfg' : List (String × Value)) (sect key a b : String)
    (v : Value) (h : ConfigManager.applyEnvOne cfg sect key v = Except.ok cfg')
    (hne : ¬(sect = a ∧ key = b)) :
    walkExc (Value.vDict cfg') [a, b] = walkExc (Value.vDict cfg) [a, b] := by
  obtain ⟨d, hd, rfl⟩ := applyEnvOne_ok_dict cfg cfg' sect key v h
  by_cases hs : sect = a
  · subst hs
    have hkb : key ≠ b := fun hk => hne ⟨rfl, hk⟩
    rw [walkExc_dict_cons, walkExc_dict_cons, lookupD_setD_self, hd]
    show walkExc (Value.vDict (setD d key v)) [b] = walkExc (Value.vDict d) [b]
    rw [walkExc_dict_cons, walkExc_dict_cons, lookupD_setD_ne _ _ _ _ (Ne.symm hkb)]
  · rw [walkExc_dict_cons, walkExc_dict_cons,
      lookupD_setD_ne _ _ _ _ (fun ha => hs ha.symm)]

theorem applyEnvOne_walk2_self (cfg cfg' : List (String × Value)) (a b : String) (v : Value)
    (h : ConfigManager.applyEnvOne cfg a b v = Except.ok cfg') :
    walkExc (Value.vDict cfg') [a, b] = Except.ok v := by
  obtain ⟨d, hd, rfl⟩ := applyEnvOne_ok_dict cfg cfg' a b v h
  rw [walkExc_dict_cons, lookupD_setD_self]
  show walkExc (Value.vDict (setD d b v)) [b] = _
  rw [walkExc_dict_cons, lookupD_setD_self]
  exact walkExc_nil v

theorem overrideEnvList_preserve (envf : String → Option String) (a b : String)
    (ms : List (String × String × String)) :
    ∀ cfg cfg', (∀ e ∈ ms, e.2.1 = a → e.2.2 = b → envf e.1 = none) →
      ConfigManager.overrideEnvList envf ms cfg = Except.ok cfg' →
      walkExc (Value.vDict cfg') [a, b] = walkExc (Value.vDict cfg) [a, b] := by
  induction ms with
  | nil =>
    intro cfg cfg' _ h
    rw [Except.ok.inj h]
  | cons hd tl ih =>
    intro cfg cfg' hnone h
    obtain ⟨name, sect, key⟩ := hd
    unfold ConfigManager.overrideEnvList at h
    cases he : envf name with
    | none =>
      rw [he] at h
      exact ih cfg cfg' (fun e he1 h1 h2 => hnone e (List.mem_cons_of_mem _ he1) h1 h2) h
    | some s =>
      simp only [he] at h
      cases ha : ConfigManager.applyEnvOne cfg sect key (ConfigManager.convertEnv s) with
      | error e =>
        simp only [ha] at h
        exact Except.noConfusion h
      | ok cfg2 =>
        simp only [ha] at h
        have hne : ¬(sect = a ∧ key = b) := by
          intro ⟨h1, h2⟩
          have := hnone (name, sect, key) (List.mem_cons_self _ _) h1 h2
          rw [he] at this
          exact Option.noConfusion this
        rw [ih cfg2 cfg' (fun e he1 h1 h2 => hnone e (List.mem_cons_of_mem _ he1) h1 h2) h]
        exact applyEnvOne_walk2_other cfg cfg2 sect key a b _ ha hne

theorem overrideEnvList_write (envf : String → Option String) (a b : String) (w : Value)
    (ms : List (String × String × String)) :
    ∀ cfg cfg', pathsDistinct ms = true →
      envPathValue envf a b ms = some w →
      ConfigManager.overrideEnvList envf ms cfg = Except.ok cfg' →
      walkExc (Value.vDict cfg') [a, b] = Except.ok w := by
  induction ms with
  | nil => intro cfg cfg' _ hp _; exact Option.noConfusion hp
  | cons hd tl ih =>
    intro cfg cfg' hdist hp h
    obtain ⟨name, sect, key⟩ := hd
    unfold pathsDistinct at hdist
    simp only [Bool.and_eq_true] at hdist
    unfold envPathValue at hp
    unfold ConfigManager.overrideEnvList at h
    by_cases hc : sect = a ∧ key = b
    · rw [if_pos hc] at hp
      obtain ⟨rfl, rfl⟩ := hc
      cases he : envf name with
      | none =>
        rw [he] at hp h
        exact ih cfg cfg' hdist.2 hp h
      | some s =>
        rw [he] at hp
        simp only [he] at h
        have hw : w = ConfigManager.convertEnv s := (Option.some.inj hp).symm
        subst hw
        cases ha : ConfigManager.applyEnvOne cfg sect key (ConfigManager.convertEnv s) with
        | error e =>
        simp only [ha] at h
        exact Except.noConfusion h
        | ok cfg2 =>
          simp only [ha] at h
          have hrest : ∀ e ∈ tl, e.2.1 = sect → e.2.2 = key → envf e.1 = none := by
            intro e he1 h1 h2
            have := List.all_eq_true.mp hdist.1 e he1
            rw [h1, h2] at this
            simp at this
          rw [overrideEnvList_preserve envf sect key tl cfg2 cfg' hrest h]
          exact applyEnvOne_walk2_self cfg cfg2 sect key _ ha
    · rw [if_neg hc] at hp
      cases he : envf name with
      | none =>
        rw [he] at h
        exact ih cfg cfg' hdist.2 hp h
      | some s =>
        simp only [he] at h
        cases ha : ConfigManager.applyEnvOne cfg sect key (ConfigManager.convertEnv s) with
        | error e =>
        simp only [ha] at h
        exact Except.noConfusion h
        | ok cfg2 =>
          simp only [ha] at h
          exact ih cfg2 cfg' hdist.2 hp h

theorem envPathValue_none_all (envf : String → Option String) (a b : String)
    (ms : List (String × String × String)) (hp : envPathValue envf a b ms = none) :
    ∀ e ∈ ms, e.2.1 = a → e.2.2 = b → envf e.1 = none := by
  induction ms with
  | nil => intro e he; exact absurd he (List.not_mem_nil e)
  | cons hd tl ih =>
    obtain ⟨name, sect, key⟩ := hd
    unfold envPathValue at hp
    intro e he h1 h2
    rcases List.mem_cons.mp he with rfl | hmem
    · simp only at h1 h2
      rw [if_pos ⟨h1, h2⟩] at hp
      cases he2 : envf name with
      | none => rfl
      | some s => rw [he2] at hp; exact Option.noConfusion hp
    · by_cases hc : sect = a ∧ key = b
      · rw [if_pos hc] at hp
        cases he2 : envf name with
        | none => rw [he2] at hp; exact ih hp e hmem h1 h2
        | some s => rw [he2] at hp; exact Option.noConfusion hp
      · rw [if_neg hc] at hp
        exact ih hp e hmem h1 h2

/-! ### Set-walk lemmas -/

theorem splitDotsAux_ne_nil (l : List Char) : ∀ acc, splitDotsAux l acc ≠ [] := by
  induction l with
  | nil => intro acc; simp [splitDotsAux]
  | cons c rest ih =>
    intro acc
    unfold splitDotsAux
    by_cases hc : c = '.'
    · rw [if_pos hc]; simp
    · rw [if_neg hc]; exact ih _

theorem splitDots_ne_nil (s : String) : splitDots s ≠ [] := splitDotsAux_ne_nil _ _

theorem setWalk_cons2 (cur : List (String × Value)) (k r : String) (rs : List String)
    (v : Value) :
    ConfigManager.setWalk cur (k :: r :: rs) v =
      (match lookupD cur k with
       | some (Value.vDict d) =>
         match ConfigManager.setWalk d (r :: rs) v with
         | Except.ok d2 => Except.ok (setD cur k (Value.vDict d2))
         | Except.error e => Except.error e
       | some _ => Except.error PyErr.typeError
       | none =>
         match ConfigManager.setWalk [] (r :: rs) v with
         | Except.ok d2 => Except.ok (setD cur k (Value.vDict d2))
         | Except.error e => Except.error e) := rfl

theorem setWalk_get (ks : List String) :
    ∀ (cur d2 : List (String × Value)) (v : Value), ks ≠ [] →
      ConfigManager.setWalk cur ks v = Except.ok d2 →
      walkExc (Value.vDict d2) ks = Except.ok v := by
  induction ks with
  | nil => intro cur d2 v h; exact absurd rfl h
  | cons k rest ih =>
    intro cur d2 v _ hs
    cases rest with
    | nil =>
      have hd2 : d2 = setD cur k v := (Except.ok.inj hs).symm
      subst hd2
      rw [walkExc_dict_cons, lookupD_setD_self]
      exact walkExc_nil v
    | cons r rs =>
      rw [setWalk_cons2] at hs
      cases hl : lookupD cur k with
      | some u =>
        cases u with
        | vDict d =>
          simp only [hl] at hs
          cases hrec : ConfigManager.setWalk d (r :: rs) v with
          | error e => simp only [hrec] at hs; exact Except.noConfusion hs
          | ok dd =>
            simp only [hrec] at hs
            have hd2 : d2 = setD cur k (Value.vDict dd) := (Except.ok.inj hs).symm
            subst hd2
            rw [walkExc_dict_cons, lookupD_setD_self]
            exact ih d dd v (by simp) hrec
        | vB x => simp only [hl] at hs; exact Except.noConfusion hs
        | vI x => simp only [hl] at hs; exact Except.noConfusion hs
        | vS x => simp only [hl] at hs; exact Except.noConfusion hs
        | vNull => simp only [hl] at hs; exact Except.noConfusion hs
      | none =>
        simp only [hl] at hs
        cases hrec : ConfigManager.setWalk [] (r :: rs) v with
        | error e => simp only [hrec] at hs; exact Except.noConfusion hs
        | ok dd =>
          simp only [hrec] at hs
          have hd2 : d2 = setD cur k (Value.vDict dd) := (Except.ok.inj hs).symm
          subst hd2
          rw [walkExc_dict_cons, lookupD_setD_self]
          exact ih [] dd v (by simp) hrec

theorem setWalk_ok_iff (ks : List String) :
    ∀ (cur : List (String × Value)) (v : Value), ks ≠ [] →
      ((∃ d2, ConfigManager.setWalk cur ks v = Except.ok d2) ↔
        pathCreatable cur ks = true) := by
  induction ks with
  | nil => intro cur v h; exact absurd rfl h
  | cons k rest ih =>
    intro cur v _
    cases rest with
    | nil => exact ⟨fun _ => rfl, fun _ => ⟨setD cur k v, rfl⟩⟩
    | cons r rs =>
      rw [setWalk_cons2]
      show _ ↔ pathCreatable cur (k :: r :: rs) = true
      unfold pathCreatable
      cases hl : lookupD cur k with
      | some u =>
        cases u with
        | vDict d =>
          dsimp only []
          constructor
          · intro ⟨d2, hd2⟩
            cases hrec : ConfigManager.setWalk d (r :: rs) v with
            | error e => rw [hrec] at hd2; exact Except.noConfusion hd2
            | ok dd => exact (ih d v (by simp)).mp ⟨dd, hrec⟩
          · intro hpc
            obtain ⟨dd, hdd⟩ := (ih d v (by simp)).mpr hpc
            exact ⟨setD cur k (Value.vDict dd), by rw [hdd]⟩
        | vB x => exact ⟨fun ⟨d2, hd2⟩ => Except.noConfusion hd2, fun hpc => Bool.noConfusion hpc⟩
        | vI x => exact ⟨fun ⟨d2, hd2⟩ => Except.noConfusion hd2, fun hpc => Bool.noConfusion hpc⟩
        | vS x => exact ⟨fun ⟨d2, hd2⟩ => Except.noConfusion hd2, fun hpc => Bool.noConfusion hpc⟩
        | vNull => exact ⟨fun ⟨d2, hd2⟩ => Except.noConfusion hd2, fun hpc => Bool.noConfusion hpc⟩
      | none =>
        dsimp only []
        constructor
        · intro ⟨d2, hd2⟩
          cases hrec : ConfigManager.setWalk [] (r :: rs) v with
          | error e => rw [hrec] at hd2; exact Except.noConfusion hd2
          | ok dd => exact (ih [] v (by simp)).mp ⟨dd, hrec⟩
        · intro hpc
          obtain ⟨dd, hdd⟩ := (ih [] v (by simp)).mpr hpc
          exact ⟨setD cur k (Value.vDict dd), by rw [hdd]⟩

theorem setWalk_error_typeError (ks : List String) :
    ∀ (cur : List (String × Value)) (v : Value) (e : PyErr),
      ConfigManager.setWalk cur ks v = Except.error e → e = PyErr.typeError := by
  induction ks with
  | nil => intro cur v e h; exact Except.noConfusion h
  | cons k rest ih =>
    intro cur v e h
    cases rest with
    | nil => exact Except.noConfusion h
    | cons r rs =>
      rw [setWalk_cons2] at h
      cases hl : lookupD cur k with
      | some u =>
        cases u with
        | vDict d =>
          simp only [hl] at h
          cases hrec : ConfigManager.setWalk d (r :: rs) v with
          | error e2 =>
            simp only [hrec] at h
            rw [← Except.error.inj h]
            exact ih d v e2 hrec
          | ok dd => simp only [hrec] at h; exact Except.noConfusion h
        | vB x => simp only [hl] at h; exact (Except.error.inj h).symm
        | vI x => simp only [hl] at h; exact (Except.error.inj h).symm
        | vS x => simp only [hl] at h; exact (Except.error.inj h).symm
        | vNull => simp only [hl] at h; exact (Except.error.inj h).symm
      | none =>
        simp only [hl] at h
        cases hrec : ConfigManager.setWalk [] (r :: rs) v with
        | error e2 =>
          simp only [hrec] at h
          rw [← Except.error.inj h]
          exact ih [] v e2 hrec
        | ok dd => simp only [hrec] at h; exact Except.noConfusion h

/-! ### String conversion lemmas -/

theorem char_toLower_of_isDigit (c : Char) (h : c.isDigit = true) : c.toLower = c := by
  simp [Char.isDigit] at h
  have h3 : c.toNat ≤ 57 := by
    simp [Char.toNat]
    exact h.2
  simp only [Char.toLower]
  rw [if_neg]
  omega

theorem map_toLower_of_digits (l : List Char) (h : l.all Char.isDigit = true) :
    l.map Char.toLower = l := by
  induction l with
  | nil => rfl
  | cons c rest ih =>
    simp only [List.all_cons, Bool.and_eq_true] at h
    simp [char_toLower_of_isDigit c h.1, ih h.2]

theorem strLower_of_digits (s : String) (h : s.data.all Char.isDigit = true) :
    strLower s = s := by
  unfold strLower
  rw [map_toLower_of_digits _ h]

theorem convertEnv_of_lower_true (s : String) (h : strLower s = "true") :
    ConfigManager.convertEnv s = Value.vB true := by
  unfold ConfigManager.convertEnv
  rw [if_pos (Or.inl h)]
  simp [h]

theorem convertEnv_of_lower_false (s : String) (h : strLower s = "false") :
    ConfigManager.convertEnv s = Value.vB false := by
  unfold ConfigManager.convertEnv
  rw [if_pos (Or.inr h)]
  simp [h]

theorem convertEnv_of_digits (s : String) (h : isDigitStr s = true) :
    ConfigManager.convertEnv s = Value.vI (Int.ofNat (digitsToNat s)) := by
  have hall : s.data.all Char.isDigit = true := by
    unfold isDigitStr at h
    exact (Bool.and_eq_true _ _ |>.mp h).2
  have hsl : strLower s = s := strLower_of_digits s hall
  unfold ConfigManager.convertEnv
  rw [hsl]
  rw [if_neg (by
    rintro (h' | h') <;> rw [h'] at hall <;> exact absurd hall (by decide))]
  rw [if_pos h]

theorem convertEnv_of_other (s : String) (h1 : strLower s ≠ "true")
    (h2 : strLower s ≠ "false") (h3 : isDigitStr s = false) :
    ConfigManager.convertEnv s = Value.vS s := by
  unfold ConfigManager.convertEnv
  rw [if_neg (by rintro (h | h) <;> [exact h1 h; exact h2 h])]
  rw [if_neg (by rw [h3]; exact Bool.false_ne_true)]

/-! ### Get / load glue lemmas -/

theorem getExc_ok (cfg : List (String × Value)) (key : String) (dflt : Value) :
    ConfigManager.getExc cfg key dflt = Except.ok (ConfigManager.get cfg key dflt) := by
  unfold ConfigManager.getExc ConfigManager.get
  cases h : walkExc (Value.vDict cfg) (splitDots key) with
  | ok v => rfl
  | error e => cases e <;> rfl

theorem get_of_walk (cfg : List (String × Value)) (key : String) (dflt v : Value)
    (h : walkExc (Value.vDict cfg) (splitDots key) = Except.ok v) :
    ConfigManager.get cfg key dflt = v := by
  simp only [ConfigManager.get, h]

theorem get_of_error (cfg : List (String × Value)) (key : String) (dflt : Value) (e : PyErr)
    (h : walkExc (Value.vDict cfg) (splitDots key) = Except.error e) :
    ConfigManager.get cfg key dflt = dflt := by
  cases e <;> simp only [ConfigManager.get, h]

theorem loadConfig_present_ok (f : List (String × Value)) (envf : String → Option String)
    (tree : List (String × Value))
    (h : ConfigManager.loadConfig (ConfigManager.FileState.present (Except.ok f)) envf =
      Except.ok tree) :
    ConfigManager.overrideEnvList envf ConfigManager.envMappings
      (ConfigManager.mergeConfig ConfigManager.defaultConfig f) = Except.ok tree := by
  unfold ConfigManager.loadConfig ConfigManager.loadData ConfigManager.overrideWithEnvVars at h
  cases he : ConfigManager.overrideEnvList envf ConfigManager.envMappings
      (ConfigManager.mergeConfig ConfigManager.defaultConfig f) with
  | ok cfg =>
    simp only [he] at h
    rw [Except.ok.inj h]
  | error e =>
    simp only [he] at h
    exact Except.noConfusion h

theorem loadConfig_absent_ok (envf : String → Option String) (tree : List (String × Value))
    (h : ConfigManager.loadConfig ConfigManager.FileState.absent envf = Except.ok tree) :
    ConfigManager.overrideEnvList envf ConfigManager.envMappings
      ConfigManager.defaultConfig = Except.ok tree := by
  unfold ConfigManager.loadConfig ConfigManager.loadData ConfigManager.overrideWithEnvVars at h
  cases he : ConfigManager.overrideEnvList envf ConfigManager.envMappings
      ConfigManager.defaultConfig with
  | ok cfg =>
    simp only [he] at h
    rw [Except.ok.inj h]
  | error e =>
    simp only [he] at h
    exact Except.noConfusion h

/-- A path reachable in the base but missed by the override walk with a
`KeyError` (every override value along the way is a dict until a key is
absent) keeps its base value in the merge result: the default survives a
partial section override. -/
theorem walkExc_mergeConfig_default (ps : List String) :
    ∀ (b o : List (String × Value)) (v : Value),
      wfValue (Value.vDict o) = true →
      walkExc (Value.vDict b) ps = Except.ok v →
      walkExc (Value.vDict o) ps = Except.error PyErr.keyError →
      walkExc (Value.vDict (ConfigManager.mergeConfig b o)) ps = Except.ok v := by
  induction ps with
  | nil =>
    intro b o v _ _ ho
    rw [walkExc_nil] at ho
    exact Except.noConfusion ho
  | cons k rest ih =>
    intro b o v hwf hb ho
    have hdis : distinctKeys o = true :=
      wfEntries_distinctKeys o (by rw [← wfValue_dict]; exact hwf)
    cases hlb : lookupD b k with
    | none =>
      rw [walkExc_dict_cons, hlb] at hb
      exact Except.noConfusion hb
    | some bv =>
      have hb2 : walkExc bv rest = Except.ok v := by
        rw [walkExc_dict_cons, hlb] at hb
        exact hb
      cases hlo : lookupD o k with
      | none =>
        have hm := lookupD_mergeConfig_of_none o b k hlo
        rw [walkExc_dict_cons, hm, hlb]
        exact hb2
      | some ov =>
        have ho2 : walkExc ov rest = Except.error PyErr.keyError := by
          rw [walkExc_dict_cons, hlo] at ho
          exact ho
        cases rest with
        | nil =>
          rw [walkExc_nil] at ho2
          exact Except.noConfusion ho2
        | cons r rs =>
          obtain ⟨od, rfl⟩ : ∃ od, ov = Value.vDict od := by
            cases hc : ov <;> rw [hc] at ho2 <;>
              first
                | exact ⟨_, rfl⟩
                | (rw [walkExc_not_dict _ (by simp [Value.isDict]) _ _] at ho2
                   exact PyErr.noConfusion (Except.error.inj ho2))
          obtain ⟨bd, rfl⟩ : ∃ bd, bv = Value.vDict bd := by
            cases hc : bv <;> rw [hc] at hb2 <;>
              first
                | exact ⟨_, rfl⟩
                | (rw [walkExc_not_dict _ (by simp [Value.isDict]) _ _] at hb2
                   exact Except.noConfusion hb2)
          have hwfod : wfValue (Value.vDict od) = true := by
            rw [wfValue_dict]
            have := wfEntries_lookup o k (Value.vDict od)
              (by rw [← wfValue_dict]; exact hwf) hlo
            rw [wfValue_dict] at this
            exact this
          have hm := mergeConfig_lookup_both_dict o b k od bd hdis hlo hlb
          rw [walkExc_dict_cons, hm]
          exact ih bd od v hwfod hb2 ho2

/-- One successful env-var write at section/key (`s`, `k`) leaves every
non-dict value unchanged at any path that does not start with `[s, k]`. -/
theorem applyEnvOne_walk_preserve_path (cfg cfg' : List (String × Value))
    (s k : String) (v0 : Value) (ps : List String) (v : Value)
    (h : ConfigManager.applyEnvOne cfg s k v0 = Except.ok cfg')
    (hv : walkExc (Value.vDict cfg) ps = Except.ok v) (hvd : v.isDict = false)
    (hnp : ∀ rest, ps ≠ s :: k :: rest) :
    walkExc (Value.vDict cfg') ps = Except.ok v := by
  obtain ⟨d, hd, rfl⟩ := applyEnvOne_ok_dict cfg cfg' s k v0 h
  cases ps with
  | nil =>
    rw [walkExc_nil] at hv
    rw [← Except.ok.inj hv] at hvd
    simp [Value.isDict] at hvd
  | cons p rest =>
    by_cases hp : p = s
    · subst hp
      rw [walkExc_dict_cons, hd] at hv
      have hv2 : walkExc (Value.vDict d) rest = Except.ok v := hv
      rw [walkExc_dict_cons, lookupD_setD_self]
      show walkExc (Value.vDict (setD d k v0)) rest = Except.ok v
      cases rest with
      | nil =>
        rw [walkExc_nil] at hv2
        rw [← Except.ok.inj hv2] at hvd
        simp [Value.isDict] at hvd
      | cons q rest2 =>
        by_cases hq : q = k
        · subst hq
          exact absurd rfl (hnp rest2)
        · rw [walkExc_dict_cons, lookupD_setD_ne d k q v0 hq]
          rw [walkExc_dict_cons] at hv2
          exact hv2
    · rw [walkExc_dict_cons, lookupD_setD_ne _ _ _ _ hp]
      rw [walkExc_dict_cons] at hv
      exact hv

/-- The whole env-var pass leaves a non-dict value unchanged at any path
not starting with the target segments of a variable that is set. -/
theorem overrideEnvList_preserve_path (envf : String → Option String)
    (ps : List String) (v : Value) (hvd : v.isDict = false)
    (ms : List (String × String × String)) :
    ∀ cfg cfg',
      (∀ name s k, (name, s, k) ∈ ms → (∃ rest, ps = s :: k :: rest) → envf name = none) →
      ConfigManager.overrideEnvList envf ms cfg = Except.ok cfg' →
      walkExc (Value.vDict cfg) ps = Except.ok v →
      walkExc (Value.vDict cfg') ps = Except.ok v := by
  induction ms with
  | nil =>
    intro cfg cfg' _ h hv
    rw [← Except.ok.inj h]
    exact hv
  | cons hd tl ih =>
    intro cfg cfg' hnone h hv
    obtain ⟨name, sect, key⟩ := hd
    unfold ConfigManager.overrideEnvList at h
    cases he : envf name with
    | none =>
      rw [he] at h
      exact ih cfg cfg'
        (fun n s k hm hex => hnone n s k (List.mem_cons_of_mem _ hm) hex) h hv
    | some str =>
      simp only [he] at h
      cases ha : ConfigManager.applyEnvOne cfg sect key (ConfigManager.convertEnv str) with
      | error e =>
        simp only [ha] at h
        exact Except.noConfusion h
      | ok cfg2 =>
        simp only [ha] at h
        have hnp : ∀ rest, ps ≠ sect :: key :: rest := by
          intro rest hps
          have := hnone name sect key (List.mem_cons_self _ _) ⟨rest, hps⟩
          rw [he] at this
          exact Option.noConfusion this
        have hv2 := applyEnvOne_walk_preserve_path cfg cfg2 sect key _ ps v ha hv hvd hnp
        exact ih cfg2 cfg'
          (fun n s k hm hex => hnone n s k (List.mem_cons_of_mem _ hm) hex) h hv2

/-! ### Claim theorems -/

/-- C4: `get` splits the key on `.`, walks the tree, and returns the
caller default whenever any segment is missing (`KeyError`) or a
non-mapping is indexed into (`TypeError`); the two-arm handler catches
every error the walk can raise, so `get` never raises. -/
theorem c4_get_total_default (cfg : List (String × Value)) (key : String) (dflt : Value) :
    (∃ v, ConfigManager.getExc cfg key dflt = Except.ok v) ∧
    (∀ e, walkExc (Value.vDict cfg) (splitDots key) = Except.error e →
      ConfigManager.getExc cfg key dflt = Except.ok dflt) := by
  constructor
  · exact ⟨_, getExc_ok cfg key dflt⟩
  · intro e he
    rw [getExc_ok cfg key dflt, get_of_error cfg key dflt e he]

theorem c4_witness :
    ConfigManager.getExc ConfigManager.defaultConfig "nonexistent.path" (Value.vS "fallback") =
      Except.ok (Value.vS "fallback") :=
  (c4_get_total_default ConfigManager.defaultConfig "nonexistent.path" (Value.vS "fallback")).2
    PyErr.keyError rfl

/-- C10: whenever the dotted-path traversal succeeds, `get` returns the
stored value — even when that value is `None` — and the caller default is
never substituted for a present-but-null value. -/
theorem c10_present_value_even_null (cfg : List (String × Value)) (key : String)
    (dflt v : Value) (h : walkExc (Value.vDict cfg) (splitDots key) = Except.ok v) :
    ConfigManager.get cfg key dflt = v :=
  get_of_walk cfg key dflt v h

theorem c10_witness :
    ConfigManager.get ConfigManager.defaultConfig "browser.user_agent" (Value.vS "fallback") =
      Value.vNull :=
  c10_present_value_even_null ConfigManager.defaultConfig "browser.user_agent"
    (Value.vS "fallback") Value.vNull rfl

/-- C7: when the override file is absent, `_load_config` silently falls
back to the defaults layer (still applying env-var overrides); when the
file is present but malformed, the parse error propagates to the caller. -/
theorem c7_load_file_errors (envf : String → Option String) :
    (∀ cfg, ConfigManager.overrideWithEnvVars envf ConfigManager.defaultConfig = Except.ok cfg →
      ConfigManager.loadConfig ConfigManager.FileState.absent envf = Except.ok cfg) ∧
    (∀ msg, ConfigManager.loadConfig (ConfigManager.FileState.present (Except.error msg)) envf =
      Except.error (ConfigManager.LoadErr.parseError msg)) := by
  constructor
  · intro cfg hc
    unfold ConfigManager.loadConfig ConfigManager.loadData ConfigManager.overrideWithEnvVars
    simp only [ConfigManager.overrideWithEnvVars] at hc
    simp only [hc]
  · intro msg
    rfl

theorem c7_witness :
    ConfigManager.loadConfig ConfigManager.FileState.absent (fun _ => none) =
      Except.ok ConfigManager.defaultConfig ∧
    ConfigManager.loadConfig (ConfigManager.FileState.present (Except.error "bad yaml"))
      (fun _ => none) = Except.error (ConfigManager.LoadErr.parseError "bad yaml") :=
  ⟨(c7_load_file_errors (fun _ => none)).1 ConfigManager.defaultConfig rfl,
   (c7_load_file_errors (fun _ => none)).2 "bad yaml"⟩

/-- C8: `validate_config` raises a `ValueError` when `web.base_url` is
explicitly set to null (its check is that each required dotted path —
`web.base_url`, `api.base_url`, `browser.name` — resolves non-null), and
returns `True` when all three are non-null. -/
theorem c8_validate_required (cfg : List (String × Value)) :
    (walkExc (Value.vDict cfg) (splitDots "web.base_url") = Except.ok Value.vNull →
      ∃ msg, ConfigManager.validateConfig cfg = Except.error msg) ∧
    ((ConfigManager.get cfg "web.base_url" Value.vNull).isNull = false →
     (ConfigManager.get cfg "api.base_url" Value.vNull).isNull = false →
     (ConfigManager.get cfg "browser.name" Value.vNull).isNull = false →
     ConfigManager.validateConfig cfg = Except.ok true) := by
  constructor
  · intro h
    refine ⟨"Missing required configuration: web.base_url", ?_⟩
    have hg : ConfigManager.get cfg "web.base_url" Value.vNull = Value.vNull :=
      get_of_walk _ _ _ _ h
    simp [ConfigManager.validateConfig, ConfigManager.requiredKeys,
      ConfigManager.validateKeys, hg, Value.isNull]
  · intro h1 h2 h3
    simp [ConfigManager.validateConfig, ConfigManager.requiredKeys,
      ConfigManager.validateKeys, h1, h2, h3]

theorem c8_witness :
    (∃ msg, ConfigManager.validateConfig [("web", Value.vDict [("base_url", Value.vNull)])] =
      Except.error msg) ∧
    ConfigManager.validateConfig ConfigManager.defaultConfig = Except.ok true :=
  ⟨(c8_validate_required [("web", Value.vDict [("base_url", Value.vNull)])]).1 rfl,
   (c8_validate_required ConfigManager.defaultConfig).2 rfl rfl rfl⟩

/-- C6: `_merge_config` is a recursive structural merge — for each key of
the override: if the key exists in the base and both values are dicts, the
merge recurses; otherwise the override value replaces the base value with
no type-compatibility check; keys absent from the override are untouched. -/
theorem c6_merge_rule (b o : List (String × Value)) (k : String)
    (hdis : distinctKeys o = true) :
    (∀ od bd, lookupD o k = some (Value.vDict od) → lookupD b k = some (Value.vDict bd) →
      lookupD (ConfigManager.mergeConfig b o) k =
        some (Value.vDict (ConfigManager.mergeConfig bd od))) ∧
    (∀ ov, lookupD o k = some ov →
      (∀ od bd, ov = Value.vDict od → lookupD b k = some (Value.vDict bd) → False) →
      lookupD (ConfigManager.mergeConfig b o) k = some ov) ∧
    (lookupD o k = none → lookupD (ConfigManager.mergeConfig b o) k = lookupD b k) :=
  ⟨fun od bd ho hb => mergeConfig_lookup_both_dict o b k od bd hdis ho hb,
   fun ov ho hnot => mergeConfig_lookup_replace o b k ov hdis ho hnot,
   fun ho => lookupD_mergeConfig_of_none o b k ho⟩

theorem c6_witness :
    lookupD (ConfigManager.mergeConfig
        [("a", Value.vDict [("x", Value.vI 1)]), ("s", Value.vDict [("q", Value.vI 3)])]
        [("a", Value.vDict [("y", Value.vI 2)]), ("s", Value.vI 5)]) "a" =
      some (Value.vDict [("x", Value.vI 1), ("y", Value.vI 2)]) ∧
    lookupD (ConfigManager.mergeConfig
        [("a", Value.vDict [("x", Value.vI 1)]), ("s", Value.vDict [("q", Value.vI 3)])]
        [("a", Value.vDict [("y", Value.vI 2)]), ("s", Value.vI 5)]) "s" =
      some (Value.vI 5) := by
  constructor
  · have h := (c6_merge_rule
      [("a", Value.vDict [("x", Value.vI 1)]), ("s", Value.vDict [("q", Value.vI 3)])]
      [("a", Value.vDict [("y", Value.vI 2)]), ("s", Value.vI 5)] "a" (by decide)).1
      [("y", Value.vI 2)] [("x", Value.vI 1)] rfl rfl
    rw [h]
    rfl
  · exact (c6_merge_rule
      [("a", Value.vDict [("x", Value.vI 1)]), ("s", Value.vDict [("q", Value.vI 3)])]
      [("a", Value.vDict [("y", Value.vI 2)]), ("s", Value.vI 5)] "s" (by decide)).2.1
      (Value.vI 5) rfl (fun od bd hov _ => Value.noConfusion hov)

/-- C9 (counterexample): `set` does not always succeed — on the shipped
default configuration, `set("web.base_url.port", 1)` walks into the string
stored at `web.base_url` and raises `TypeError`. -/
theorem c9_counterexample :
    ConfigManager.set ConfigManager.defaultConfig "web.base_url.port" (Value.vI 1) =
      Except.error PyErr.typeError := rfl

/-- C9 (amended): `set` splits the key on `.`, walks the tree creating
missing intermediate mapping levels, and assigns at the final segment; it
succeeds exactly when every intermediate segment that already exists holds
a mapping, and the only error it can raise is `TypeError` (from an
existing non-mapping intermediate). -/
theorem c9_set_succeeds_iff (cfg : List (String × Value)) (key : String) (v : Value) :
    ((∃ cfg2, ConfigManager.set cfg key v = Except.ok cfg2) ↔
      pathCreatable cfg (splitDots key) = true) ∧
    (∀ e, ConfigManager.set cfg key v = Except.error e → e = PyErr.typeError) :=
  ⟨setWalk_ok_iff (splitDots key) cfg v (splitDots_ne_nil key),
   fun e he => setWalk_error_typeError (splitDots key) cfg v e he⟩

theorem c9_witness :
    ∃ cfg2, ConfigManager.set ConfigManager.defaultConfig "custom.key" (Value.vI 7) =
      Except.ok cfg2 :=
  (c9_set_succeeds_iff ConfigManager.defaultConfig "custom.key" (Value.vI 7)).1.mpr (by decide)

/-- C2 (counterexample): the merged key set is not a superset of the
base's keys at every nesting level — an override that replaces a dict
with a scalar deletes the nested keys (here `a.b`). -/
theorem c2_counterexample :
    ¬ ∀ ps : List String,
        (walkV (Value.vDict [("a", Value.vDict [("b", Value.vI 1)])]) ps).isSome = true →
        (walkV (Value.vDict (ConfigManager.mergeConfig
          [("a", Value.vDict [("b", Value.vI 1)])] [("a", Value.vI 2)])) ps).isSome = true :=
  fun h => absurd (h ["a", "b"] rfl) (by decide)

/-- C2 (amended): merging never deletes top-level keys of the base; a
nested path reachable in the base stays reachable in `Merge(D, O)`
provided every value the override supplies at a proper prefix of the path
is itself a mapping (when the override replaces an ancestor dict with a
scalar, nested base keys under it are dropped). -/
theorem c2_merge_superset_amended (b o : List (String × Value)) :
    (∀ k u, lookupD b k = some u →
      ∃ w, lookupD (ConfigManager.mergeConfig b o) k = some w) ∧
    (∀ ps v, wfValue (Value.vDict o) = true →
      walkExc (Value.vDict b) ps = Except.ok v →
      (∀ qs rs, qs ++ rs = ps → rs ≠ [] → ∀ u,
        walkExc (Value.vDict o) qs = Except.ok u → u.isDict = true) →
      ∃ w, walkExc (Value.vDict (ConfigManager.mergeConfig b o)) ps = Except.ok w) :=
  ⟨fun k u hu => mergeConfig_lookup_some o b k (Or.inl ⟨u, hu⟩),
   fun ps v hwf hb hpre => walkExc_mergeConfig_superset ps b o v hwf hb hpre⟩

theorem c2_witness :
    (∃ w, lookupD (ConfigManager.mergeConfig
      [("a", Value.vDict [("b", Value.vI 1)]), ("c", Value.vI 2)]
      [("a", Value.vDict [("z", Value.vI 9)]), ("n", Value.vI 5)]) "c" = some w) ∧
    (∃ w, walkExc (Value.vDict (ConfigManager.mergeConfig
      [("a", Value.vDict [("b", Value.vI 1)]), ("c", Value.vI 2)]
      [("a", Value.vDict [("z", Value.vI 9)]), ("n", Value.vI 5)])) ["a", "b"] =
        Except.ok w) := by
  constructor
  · exact (c2_merge_superset_amended
      [("a", Value.vDict [("b", Value.vI 1)]), ("c", Value.vI 2)]
      [("a", Value.vDict [("z", Value.vI 9)]), ("n", Value.vI 5)]).1 "c" (Value.vI 2) rfl
  · refine (c2_merge_superset_amended
      [("a", Value.vDict [("b", Value.vI 1)]), ("c", Value.vI 2)]
      [("a", Value.vDict [("z", Value.vI 9)]), ("n", Value.vI 5)]).2 ["a", "b"] (Value.vI 1)
      (by decide) rfl ?_
    intro qs rs hq hr u hu
    cases qs with
    | nil =>
      rw [walkExc_nil] at hu
      rw [← Except.ok.inj hu]
      rfl
    | cons x xs =>
      cases xs with
      | nil =>
        have hx : x = "a" := (List.cons.inj hq).1
        subst hx
        have : u = Value.vDict [("z", Value.vI 9)] :=
          (Except.ok.inj (show Except.ok (Value.vDict [("z", Value.vI 9)]) = Except.ok u from hu)).symm
        rw [this]
        rfl
      | cons y ys =>
        exfalso
        have h2 : ys ++ rs = [] := (List.cons.inj (List.cons.inj hq).2).2
        exact hr (List.append_eq_nil.mp h2).2

/-- C5: after `set("custom.key", 7)`, `get("custom.key")` returns `7`;
re-running `Load` on the same file state and environment (what
`reload_config` does) reproduces the pre-`set` tree, so the same `get`
again returns the pre-`set` value — in-memory mutations do not survive a
reload. -/
theorem c5_set_get_reload (fs : ConfigManager.FileState) (envf : String → Option String)
    (tree tree2 : List (String × Value)) (dflt : Value)
    (hload : ConfigManager.loadConfig fs envf = Except.ok tree)
    (hset : ConfigManager.set tree "custom.key" (Value.vI 7) = Except.ok tree2) :
    ConfigManager.get tree2 "custom.key" dflt = Value.vI 7 ∧
    (∀ tree3, ConfigManager.loadConfig fs envf = Except.ok tree3 →
      ConfigManager.get tree3 "custom.key" dflt = ConfigManager.get tree "custom.key" dflt) := by
  constructor
  · exact get_of_walk _ _ _ _
      (setWalk_get (splitDots "custom.key") tree tree2 (Value.vI 7) (splitDots_ne_nil _) hset)
  · intro tree3 h3
    rw [hload] at h3
    rw [← Except.ok.inj h3]

theorem c5_witness :
    ∃ tree2, ConfigManager.set ConfigManager.defaultConfig "custom.key" (Value.vI 7) =
        Except.ok tree2 ∧
      ConfigManager.get tree2 "custom.key" Value.vNull = Value.vI 7 ∧
      ConfigManager.get ConfigManager.defaultConfig "custom.key" Value.vNull = Value.vNull := by
  cases hset : ConfigManager.set ConfigManager.defaultConfig "custom.key" (Value.vI 7) with
  | error e => exact Except.noConfusion hset
  | ok tree2 =>
    have h := c5_set_get_reload ConfigManager.FileState.absent (fun _ => none)
      ConfigManager.defaultConfig tree2 Value.vNull rfl hset
    exact ⟨tree2, rfl, h.1,
      (h.2 ConfigManager.defaultConfig rfl).trans
        (show ConfigManager.get ConfigManager.defaultConfig "custom.key" Value.vNull =
          Value.vNull from rfl)⟩

/-- C3: a set env-var value is converted before being written at its
mapped path — `"true"`/`"false"` case-insensitively become booleans, an
all-decimal-digit string becomes an integer, anything else stays a
string; in particular `BROWSER_HEADLESS=false` makes
`get("browser.headless")` the boolean `False` and `API_TIMEOUT=45` makes
`get("api.timeout")` the integer `45`. -/
theorem c3_env_conversion :
    (∀ s, strLower s = "true" → ConfigManager.convertEnv s = Value.vB true) ∧
    (∀ s, strLower s = "false" → ConfigManager.convertEnv s = Value.vB false) ∧
    (∀ s, isDigitStr s = true →
      ConfigManager.convertEnv s = Value.vI (Int.ofNat (digitsToNat s))) ∧
    (∀ s, strLower s ≠ "true" → strLower s ≠ "false" → isDigitStr s = false →
      ConfigManager.convertEnv s = Value.vS s) ∧
    (∀ envf tree, envf "BROWSER_HEADLESS" = some "false" → envf "API_TIMEOUT" = some "45" →
      ConfigManager.loadConfig ConfigManager.FileState.absent envf = Except.ok tree →
      ConfigManager.get tree "browser.headless" Value.vNull = Value.vB false ∧
      ConfigManager.get tree "api.timeout" Value.vNull = Value.vI 45) := by
  refine ⟨convertEnv_of_lower_true, convertEnv_of_lower_false, convertEnv_of_digits,
    convertEnv_of_other, ?_⟩
  intro envf tree h1 h2 hload
  have hlist := loadConfig_absent_ok envf tree hload
  constructor
  · have hcv : ConfigManager.convertEnv "false" = Value.vB false :=
      convertEnv_of_lower_false "false" rfl
    have hpv : envPathValue envf "browser" "headless" ConfigManager.envMappings =
        some (Value.vB false) := by
      simp [envPathValue, ConfigManager.envMappings, h1, hcv]
    have hw := overrideEnvList_write envf "browser" "headless" (Value.vB false)
      ConfigManager.envMappings ConfigManager.defaultConfig tree (by decide) hpv hlist
    exact get_of_walk tree "browser.headless" Value.vNull (Value.vB false) hw
  · have hcv : ConfigManager.convertEnv "45" = Value.vI 45 :=
      (convertEnv_of_digits "45" (by decide)).trans rfl
    have hpv : envPathValue envf "api" "timeout" ConfigManager.envMappings =
        some (Value.vI 45) := by
      simp [envPathValue, ConfigManager.envMappings, h2, hcv]
    have hw := overrideEnvList_write envf "api" "timeout" (Value.vI 45)
      ConfigManager.envMappings ConfigManager.defaultConfig tree (by decide) hpv hlist
    exact get_of_walk tree "api.timeout" Value.vNull (Value.vI 45) hw

theorem c3_witness :
    ∃ tree, ConfigManager.loadConfig ConfigManager.FileState.absent
        (fun n => if n = "BROWSER_HEADLESS" then some "false"
          else if n = "API_TIMEOUT" then some "45" else none) = Except.ok tree ∧
      ConfigManager.get tree "browser.headless" Value.vNull = Value.vB false ∧
      ConfigManager.get tree "api.timeout" Value.vNull = Value.vI 45 := by
  cases hload : ConfigManager.loadConfig ConfigManager.FileState.absent
      (fun n => if n = "BROWSER_HEADLESS" then some "false"
        else if n = "API_TIMEOUT" then some "45" else none) with
  | error e => exact Except.noConfusion hload
  | ok tree =>
    have h := c3_env_conversion.2.2.2.2
      (fun n => if n = "BROWSER_HEADLESS" then some "false"
        else if n = "API_TIMEOUT" then some "45" else none) tree rfl rfl hload
    exact ⟨tree, rfl, h.1, h.2⟩

/-- C1: the effective configuration layers defaults, then the override
file, then env vars, lowest to highest precedence. For any dotted path of
the resulting tree: a recognized env variable that is set wins at its
target path; otherwise the override file wins at every path (any depth)
it provides with a non-dict value; otherwise the defaults win at every
path (any depth) whose walk through the file config fails on a missing
key — which covers both absent sections and partially-overridden
sections or nested dicts. -/
theorem c1_layered_precedence (fileCfg : List (String × Value))
    (envf : String → Option String) (tree : List (String × Value))
    (ps : List String) (key : String) (dflt : Value)
    (hwf : wfValue (Value.vDict fileCfg) = true)
    (hload : ConfigManager.loadConfig (ConfigManager.FileState.present (Except.ok fileCfg))
      envf = Except.ok tree)
    (hkey : splitDots key = ps) :
    (∀ a b w, ps = [a, b] →
      envPathValue envf a b ConfigManager.envMappings = some w →
      ConfigManager.get tree key dflt = w) ∧
    (∀ v, (∀ a b rest, ps = a :: b :: rest →
        envPathValue envf a b ConfigManager.envMappings = none) →
      walkExc (Value.vDict fileCfg) ps = Except.ok v → v.isDict = false →
      ConfigManager.get tree key dflt = v) ∧
    (∀ v, (∀ a b rest, ps = a :: b :: rest →
        envPathValue envf a b ConfigManager.envMappings = none) →
      walkExc (Value.vDict fileCfg) ps = Except.error PyErr.keyError →
      walkExc (Value.vDict ConfigManager.defaultConfig) ps = Except.ok v →
      v.isDict = false →
      ConfigManager.get tree key dflt = v) := by
  have hlist := loadConfig_present_ok fileCfg envf tree hload
  have hentry : (∀ a b rest, ps = a :: b :: rest →
        envPathValue envf a b ConfigManager.envMappings = none) →
      ∀ name s k, (name, s, k) ∈ ConfigManager.envMappings →
        (∃ rest, ps = s :: k :: rest) → envf name = none := by
    intro hnone name s k hm hex
    obtain ⟨rest, hrest⟩ := hex
    exact envPathValue_none_all envf s k ConfigManager.envMappings
      (hnone s k rest hrest) (name, s, k) hm rfl rfl
  refine ⟨?_, ?_, ?_⟩
  · intro a b w hps hw
    subst hps
    have hwalk := overrideEnvList_write envf a b w ConfigManager.envMappings _ tree
      (by decide) hw hlist
    exact get_of_walk tree key dflt w (by rw [hkey]; exact hwalk)
  · intro v hnone hv hvd
    have hover := walkExc_mergeConfig_override ps fileCfg ConfigManager.defaultConfig v
      hwf hv hvd
    have hpres := overrideEnvList_preserve_path envf ps v hvd ConfigManager.envMappings
      _ tree (hentry hnone) hlist hover
    exact get_of_walk tree key dflt v (by rw [hkey]; exact hpres)
  · intro v hnone hfile hdef hvd
    have hmerge := walkExc_mergeConfig_default ps ConfigManager.defaultConfig fileCfg v
      hwf hdef hfile
    have hpres := overrideEnvList_preserve_path envf ps v hvd ConfigManager.envMappings
      _ tree (hentry hnone) hlist hmerge
    exact get_of_walk tree key dflt v (by rw [hkey]; exact hpres)

theorem c1_witness :
    ∃ tree, ConfigManager.loadConfig (ConfigManager.FileState.present (Except.ok
        [("web", Value.vDict [("base_url", Value.vS "https://stg.example.com")]),
         ("api", Value.vDict [("headers",
            Value.vDict [("Accept", Value.vS "text/plain")])]),
         ("extra", Value.vI 3)]))
      (fun n => if n = "API_TIMEOUT" then some "45" else none) = Except.ok tree ∧
      ConfigManager.get tree "api.timeout" Value.vNull = Value.vI 45 ∧
      ConfigManager.get tree "web.base_url" Value.vNull =
        Value.vS "https://stg.example.com" ∧
      ConfigManager.get tree "api.headers.Accept" Value.vNull = Value.vS "text/plain" ∧
      ConfigManager.get tree "web.implicit_wait" Value.vNull = Value.vI 10 ∧
      ConfigManager.get tree "api.headers.Content-Type" Value.vNull =
        Value.vS "application/json" ∧
      ConfigManager.get tree "browser.name" Value.vNull = Value.vS "chrome" := by
  cases hload : ConfigManager.loadConfig (ConfigManager.FileState.present (Except.ok
      [("web", Value.vDict [("base_url", Value.vS "https://stg.example.com")]),
       ("api", Value.vDict [("headers",
          Value.vDict [("Accept", Value.vS "text/plain")])]),
       ("extra", Value.vI 3)]))
    (fun n => if n = "API_TIMEOUT" then some "45" else none) with
  | error e => exact Except.noConfusion hload
  | ok tree =>
    have H := c1_layered_precedence
      [("web", Value.vDict [("base_url", Value.vS "https://stg.example.com")]),
       ("api", Value.vDict [("headers",
          Value.vDict [("Accept", Value.vS "text/plain")])]),
       ("extra", Value.vI 3)]
      (fun n => if n = "API_TIMEOUT" then some "45" else none) tree
    refine ⟨tree, rfl, ?_, ?_, ?_, ?_, ?_, ?_⟩
    · exact (H ["api", "timeout"] "api.timeout" Value.vNull (by decide) hload rfl).1
        "api" "timeout" (Value.vI 45) rfl rfl
    · refine (H ["web", "base_url"] "web.base_url" Value.vNull (by decide) hload rfl).2.1
        (Value.vS "https://stg.example.com") ?_ rfl rfl
      intro a b rest h
      injection h with h1 h2
      injection h2 with h3 h4
      subst h1; subst h3; subst h4
      rfl
    · refine (H ["api", "headers", "Accept"] "api.headers.Accept" Value.vNull
        (by decide) hload rfl).2.1 (Value.vS "text/plain") ?_ rfl rfl
      intro a b rest h
      injection h with h1 h2
      injection h2 with h3 h4
      subst h1; subst h3; subst h4
      rfl
    · refine (H ["web", "implicit_wait"] "web.implicit_wait" Value.vNull
        (by decide) hload rfl).2.2 (Value.vI 10) ?_ rfl rfl rfl
      intro a b rest h
      injection h with h1 h2
      injection h2 with h3 h4
      subst h1; subst h3; subst h4
      rfl
    · refine (H ["api", "headers", "Content-Type"] "api.headers.Content-Type" Value.vNull
        (by decide) hload rfl).2.2 (Value.vS "application/json") ?_ rfl rfl rfl
      intro a b rest h
      injection h with h1 h2
      injection h2 with h3 h4
      subst h1; subst h3; subst h4
      rfl
    · refine (H ["browser", "name"] "browser.name" Value.vNull
        (by decide) hload rfl).2.2 (Value.vS "chrome") ?_ rfl rfl rfl
      intro a b rest h
      injection h with h1 h2
      injection h2 with h3 h4
      subst h1; subst h3; subst h4
      rfl
